import Mathlib

/-!
Verification of src/optimum/habana/distributed/serialization.py.

Shallow embedding conventions:
* Tensors are integer matrices, `List (List Int)`; a 1-D tensor (a bias)
  is encoded as an n-by-1 matrix, so slicing its first dimension is the
  same list operation in both the 1-D and the 2-D case.
* Python in-place writes (`param.copy_`, `param.zero_`) become functions
  returning the new parameter value.  `Tensor.copy_` requires the exact
  shape to match (the only case the spec exercises: destinations are
  pre-sized); a mismatch models the uncaught RuntimeError that
  `torch.Tensor.copy_` raises when the source cannot be broadcast, and is
  an `Except.error`.
* Machine integers do not appear: the code only moves tensor data around.
-/

/-- A tensor: a list of rows of integers. A 1-D tensor is n rows of one
element. -/
abbrev Tensor := List (List Int)

/-- The shape of a tensor, row by row (a faithful shape for rectangular
tensors, which is all the code produces). -/
def tshape (t : Tensor) : List Nat := t.map List.length

/-- The result of param.zero_(): same shape, all elements zero. -/
def zerosLike (t : Tensor) : Tensor := t.map (fun row => row.map (fun _ => 0))

/-- The Python slice l[r*p : (r+1)*p]. -/
def sliceSeg (p r : Nat) (l : List α) : List α := (l.drop (r * p)).take p

/-- param.copy_(newVal): in-place write into the pre-allocated parameter.
We model the exact-shape case; a shape mismatch is the fatal (uncaught)
RuntimeError of torch.Tensor.copy_. -/
def Tensor.copy_ (param newVal : Tensor) : Except Unit Tensor :=
  if tshape newVal = tshape param then .ok newVal else .error ()

/-- serialization.py line 402, _copy_if_present: parameter.copy_(tensor_value). -/
def _copy_if_present (param tensor_value : Tensor) : Except Unit Tensor :=
  param.copy_ tensor_value

/-- serialization.py lines 318-343, _copy_colwise: slice the first dimension
into world_size partitions of param.shape[0] rows and copy partition[rank].
With 1-D tensors encoded as n-by-1 matrices both branches slice the outer
list. -/
def _copy_colwise (param tensor_value : Tensor) (is_bias : Bool) (rank world_size : Nat) :
    Except Unit Tensor :=
  let output_size_per_partition := param.length
  let tensor :=
    if !is_bias then sliceSeg output_size_per_partition rank tensor_value
    else sliceSeg output_size_per_partition rank tensor_value
  param.copy_ tensor

/-- serialization.py lines 346-374, _copy_rowwise: for a weight, slice the
last dimension into world_size partitions of param.shape[1] columns and copy
partition[rank]; for a bias, rank 0 copies the whole bias and every other
rank zero-fills the parameter. -/
def _copy_rowwise (param tensor_value : Tensor) (is_bias : Bool) (rank world_size : Nat) :
    Except Unit Tensor :=
  if !is_bias then
    let output_size_per_partition := (param.headD []).length
    param.copy_ (tensor_value.map (sliceSeg output_size_per_partition rank))
  else
    if rank = 0 then _copy_if_present param tensor_value
    else .ok (zerosLike param)

/-- serialization.py lines 377-399, _copy_embedding: slice the last dimension
into world_size partitions of param.shape[1] columns and copy partition[rank]. -/
def _copy_embedding (param tensor_value : Tensor) (rank world_size : Nat) :
    Except Unit Tensor :=
  let output_size_per_partition := (param.headD []).length
  param.copy_ (tensor_value.map (sliceSeg output_size_per_partition rank))

/-- Concatenation of a list of matrices along the last dimension (dim -1):
row i of the result is the concatenation of the rows i of the inputs.
nrows is the common row count. -/
def hconcat (nrows : Nat) (ms : List Tensor) : Tensor :=
  ms.foldr (fun a b => List.zipWith (· ++ ·) a b) (List.replicate nrows [])

/-- Element-wise sum of a list of same-shaped tensors on top of a base. -/
def vsum2 (a b : Tensor) : Tensor := List.zipWith (List.zipWith (· + ·)) a b

/-- Extract the value of a successful in-place copy (total helper for
stating sums over ranks). -/
def okD (e : Except Unit Tensor) : Tensor :=
  match e with
  | .ok t => t
  | .error _ => []

-- Helper lemmas about slices.

theorem sliceSeg_zero (p : Nat) (l : List α) : sliceSeg p 0 l = l.take p := by
  simp [sliceSeg]

theorem sliceSeg_succ (p r : Nat) (l : List α) :
    sliceSeg p (r + 1) l = sliceSeg p r (l.drop p) := by
  simp only [sliceSeg, List.drop_drop]
  rw [Nat.succ_mul, Nat.add_comm (r * p) p]

/-- Concatenating the world_size contiguous slices of size p, in rank order,
gives back the original list, provided the list has exactly world_size * p
elements. -/
theorem join_sliceSeg (p : Nat) :
    ∀ (ws : Nat) (l : List α), l.length = ws * p →
      ((List.range ws).map (fun r => sliceSeg p r l)).flatten = l := by
  intro ws
  induction ws with
  | zero =>
    intro l h
    have : l = [] := List.eq_nil_of_length_eq_zero (by simpa using h)
    simp [this]
  | succ n ih =>
    intro l h
    rw [List.range_succ_eq_map, List.map_cons, List.flatten_cons, List.map_map]
    have h1 : (List.map ((fun r => sliceSeg p r l) ∘ Nat.succ) (List.range n))
        = List.map (fun r => sliceSeg p r (l.drop p)) (List.range n) := by
      apply List.map_congr_left
      intro r _
      simp only [Function.comp]
      exact sliceSeg_succ p r l
    rw [h1, ih (l.drop p) (by simp [h, Nat.succ_mul, Nat.add_comm])]
    rw [sliceSeg_zero]
    exact List.take_append_drop p l

theorem length_sliceSeg_of_lt (p ws r : Nat) (l : List α)
    (hl : l.length = ws * p) (hr : r < ws) : (sliceSeg p r l).length = p := by
  simp only [sliceSeg, List.length_take, List.length_drop, hl]
  have : r * p + p ≤ ws * p := by
    have : r + 1 ≤ ws := hr
    calc r * p + p = (r + 1) * p := by rw [Nat.succ_mul]
    _ ≤ ws * p := Nat.mul_le_mul_right p this
  omega

theorem tshape_sliceSeg (p r : Nat) (t : Tensor) :
    tshape (sliceSeg p r t) = sliceSeg p r (tshape t) := by
  simp [tshape, sliceSeg, List.map_take, List.map_drop]

theorem sliceSeg_replicate_of_lt (p ws r : Nat) (c : α) (hr : r < ws) :
    sliceSeg p r (List.replicate (ws * p) c) = List.replicate p c := by
  simp only [sliceSeg, List.drop_replicate, List.take_replicate]
  congr 1
  have : r * p + p ≤ ws * p := by
    calc r * p + p = (r + 1) * p := by rw [Nat.succ_mul]
    _ ≤ ws * p := Nat.mul_le_mul_right p hr
  omega

theorem mem_of_tshape_replicate {t : Tensor} {n c : Nat}
    (h : tshape t = List.replicate n c) : ∀ row ∈ t, row.length = c := by
  intro row hrow
  have : row.length ∈ tshape t := List.mem_map_of_mem List.length hrow
  rw [h] at this
  exact List.eq_of_mem_replicate this

theorem length_of_tshape_replicate {t : Tensor} {n c : Nat}
    (h : tshape t = List.replicate n c) : t.length = n := by
  have := congrArg List.length h
  simpa [tshape] using this

theorem map_const_eq_replicate (t : List α) (c : β) :
    t.map (fun _ => c) = List.replicate t.length c := by
  induction t with
  | nil => rfl
  | cons a l ih => simp [ih, List.replicate_succ]

theorem map_nil_eq_replicate (t : List α) :
    t.map (fun _ => ([] : List β)) = List.replicate t.length [] :=
  map_const_eq_replicate t []

theorem zipWith_append_map_same (l : List α) (f g : α → List β) :
    List.zipWith (· ++ ·) (l.map f) (l.map g) = l.map (fun x => f x ++ g x) := by
  induction l with
  | nil => rfl
  | cons a l ih => simp [ih]

/-- hconcat of per-rank row transforms of the same tensor acts row by row. -/
theorem hconcat_map (t : Tensor) (rs : List Nat) (g : Nat → List Int → List Int) :
    hconcat t.length (rs.map (fun r => t.map (g r)))
      = t.map (fun row => (rs.map (fun r => g r row)).flatten) := by
  induction rs with
  | nil => simp [hconcat, map_nil_eq_replicate]
  | cons r rs ih =>
    simp only [List.map_cons, hconcat, List.foldr_cons] at ih ⊢
    rw [ih, zipWith_append_map_same]
    simp

/-- Concatenating the per-rank last-dimension slices, in rank order,
reconstructs the tensor when every row has world_size * q elements. -/
theorem hconcat_row_slices (q ws n : Nat) (t : Tensor)
    (h : tshape t = List.replicate n (ws * q)) :
    hconcat t.length ((List.range ws).map (fun r => t.map (sliceSeg q r))) = t := by
  rw [hconcat_map]
  have : ∀ row ∈ t, ((List.range ws).map (fun r => sliceSeg q r row)).flatten = row := by
    intro row hrow
    exact join_sliceSeg q ws row (mem_of_tshape_replicate h row hrow)
  calc t.map (fun row => ((List.range ws).map (fun r => sliceSeg q r row)).flatten)
      = t.map id := List.map_congr_left this
    _ = t := List.map_id t

theorem tshape_map_sliceSeg {t : Tensor} {n ws q : Nat} (r : Nat)
    (h : tshape t = List.replicate n (ws * q)) (hr : r < ws) :
    tshape (t.map (sliceSeg q r)) = List.replicate n q := by
  have hlen : t.length = n := length_of_tshape_replicate h
  have : ∀ row ∈ t, (sliceSeg q r row).length = q := by
    intro row hrow
    exact length_sliceSeg_of_lt q ws r row (mem_of_tshape_replicate h row hrow) hr
  calc tshape (t.map (sliceSeg q r))
      = t.map (fun row => (sliceSeg q r row).length) := by simp [tshape]
    _ = t.map (fun _ => q) := List.map_congr_left this
    _ = List.replicate t.length q := map_const_eq_replicate t q
    _ = List.replicate n q := by rw [hlen]

/-- Shared step for _copy_rowwise (weights) and _copy_embedding: the copy
succeeds and produces exactly the per-rank column slice. -/
theorem rowslice_copy_ok (param t : Tensor) (ws n q r : Nat)
    (h1 : tshape param = List.replicate n q)
    (h2 : tshape t = List.replicate n (ws * q)) (hr : r < ws) :
    param.copy_ (t.map (sliceSeg ((param.headD []).length) r))
      = .ok (t.map (sliceSeg q r)) := by
  have hq : param = [] ∨ (param.headD []).length = q := by
    cases param with
    | nil => exact Or.inl rfl
    | cons p0 ps =>
      right
      have : p0.length = q :=
        mem_of_tshape_replicate h1 p0 (List.mem_cons_self p0 ps)
      simpa using this
  cases hq with
  | inl hnil =>
    subst hnil
    have hn : n = 0 := by
      have := length_of_tshape_replicate h1
      simpa using this.symm
    subst hn
    have ht : t = [] := by
      have := length_of_tshape_replicate h2
      exact List.eq_nil_of_length_eq_zero this
    subst ht
    simp [Tensor.copy_, tshape]
  | inr hq =>
    rw [hq]
    have hsh : tshape (t.map (sliceSeg q r)) = tshape param := by
      rw [tshape_map_sliceSeg r h2 hr, h1]
    simp [Tensor.copy_, hsh]

/-- C2 helper: the colwise copy succeeds and yields the first-dimension
slice of p rows at index rank. -/
theorem colwise_copy_ok (param t : Tensor) (ws p c r : Nat) (b : Bool)
    (h1 : tshape param = List.replicate p c)
    (h2 : tshape t = List.replicate (ws * p) c) (hr : r < ws) :
    _copy_colwise param t b r ws = .ok (sliceSeg p r t) := by
  have hp : param.length = p := length_of_tshape_replicate h1
  have hsh : tshape (sliceSeg p r t) = tshape param := by
    rw [tshape_sliceSeg, h2, sliceSeg_replicate_of_lt p ws r c hr, h1]
  cases b <;> simp [_copy_colwise, hp, Tensor.copy_, hsh]

/-- C2: For every supported sharding kind, every world_size and rank, with
destination parameters pre-sized consistently, concatenating each rank's
computed shard in rank order (dim 0 for colwise, last dim for rowwise
weights and embedding) reconstructs the full source tensor exactly. -/
theorem shard_roundtrip_reconstructs :
    (∀ (param t : Tensor) (ws p c : Nat) (b : Bool), 0 < ws →
       tshape param = List.replicate p c →
       tshape t = List.replicate (ws * p) c →
       (∀ r, r < ws → _copy_colwise param t b r ws = .ok (sliceSeg p r t)) ∧
       ((List.range ws).map (fun r => sliceSeg p r t)).flatten = t) ∧
    (∀ (param t : Tensor) (ws n q : Nat), 0 < ws →
       tshape param = List.replicate n q →
       tshape t = List.replicate n (ws * q) →
       (∀ r, r < ws → _copy_rowwise param t false r ws = .ok (t.map (sliceSeg q r))) ∧
       hconcat t.length ((List.range ws).map (fun r => t.map (sliceSeg q r))) = t) ∧
    (∀ (param t : Tensor) (ws n q : Nat), 0 < ws →
       tshape param = List.replicate n q →
       tshape t = List.replicate n (ws * q) →
       (∀ r, r < ws → _copy_embedding param t r ws = .ok (t.map (sliceSeg q r))) ∧
       hconcat t.length ((List.range ws).map (fun r => t.map (sliceSeg q r))) = t) := by
  refine ⟨?_, ?_, ?_⟩
  · intro param t ws p c b _ h1 h2
    refine ⟨fun r hr => colwise_copy_ok param t ws p c r b h1 h2 hr, ?_⟩
    exact join_sliceSeg p ws t (length_of_tshape_replicate h2)
  · intro param t ws n q _ h1 h2
    refine ⟨fun r hr => ?_, hconcat_row_slices q ws n t h2⟩
    show param.copy_ (t.map (sliceSeg ((param.headD []).length) r)) = _
    exact rowslice_copy_ok param t ws n q r h1 h2 hr
  · intro param t ws n q _ h1 h2
    refine ⟨fun r hr => ?_, hconcat_row_slices q ws n t h2⟩
    show param.copy_ (t.map (sliceSeg ((param.headD []).length) r)) = _
    exact rowslice_copy_ok param t ws n q r h1 h2 hr

/-- Witness for C2 at world_size 2 on a concrete 2 by 2 tensor. -/
theorem shard_roundtrip_reconstructs_witness :
    (_copy_colwise [[0, 0]] [[1, 2], [3, 4]] false 1 2 = .ok [[3, 4]]) ∧
    ((List.range 2).map (fun r => sliceSeg 1 r ([[1, 2], [3, 4]] : Tensor))).flatten
        = [[1, 2], [3, 4]] ∧
    (_copy_rowwise [[0], [0]] [[1, 2], [3, 4]] false 1 2 = .ok [[2], [4]]) ∧
    (_copy_embedding [[0], [0]] [[1, 2], [3, 4]] 0 2 = .ok [[1], [3]]) ∧
    hconcat 2 ((List.range 2).map (fun r => ([[1, 2], [3, 4]] : Tensor).map (sliceSeg 1 r)))
        = [[1, 2], [3, 4]] := by
  have h := shard_roundtrip_reconstructs
  refine ⟨((h.1 [[0, 0]] [[1, 2], [3, 4]] 2 1 2 false (by decide) (by decide)
      (by decide)).1 1 (by decide)).trans (by rfl),
    (h.1 [[0, 0]] [[1, 2], [3, 4]] 2 1 2 false (by decide) (by decide) (by decide)).2,
    ((h.2.1 [[0], [0]] [[1, 2], [3, 4]] 2 2 1 (by decide) (by decide)
      (by decide)).1 1 (by decide)).trans (by rfl),
    ((h.2.2 [[0], [0]] [[1, 2], [3, 4]] 2 2 1 (by decide) (by decide)
      (by decide)).1 0 (by decide)).trans (by rfl), ?_⟩
  have h5 := (h.2.2 [[0], [0]] [[1, 2], [3, 4]] 2 2 1 (by decide) (by decide)
      (by decide)).2
  simpa using h5

-- Lemmas for the rowwise-bias sum law.

theorem zip_add_zeros_right (r : List Int) :
    List.zipWith (· + ·) r (r.map (fun _ => (0 : Int))) = r := by
  induction r with
  | nil => rfl
  | cons a l ih =>
    simp only [List.map_cons, List.zipWith_cons_cons, add_zero]
    exact congrArg (List.cons a) ih

theorem vsum2_zerosLike (t : Tensor) : vsum2 t (zerosLike t) = t := by
  induction t with
  | nil => rfl
  | cons a l ih =>
    simp only [vsum2, zerosLike, List.map_cons, List.zipWith_cons_cons]
    rw [zip_add_zeros_right a]
    exact congrArg (List.cons a) ih

theorem zerosLike_eq_of_shape (t : Tensor) :
    zerosLike t = (tshape t).map (fun k => List.replicate k 0) := by
  induction t with
  | nil => rfl
  | cons a l ih =>
    simp only [zerosLike, tshape, List.map_cons] at ih ⊢
    rw [ih, map_const_eq_replicate]

theorem zerosLike_congr {a b : Tensor} (h : tshape a = tshape b) :
    zerosLike a = zerosLike b := by
  rw [zerosLike_eq_of_shape, zerosLike_eq_of_shape, h]

theorem zerosLike_idem (t : Tensor) : zerosLike (zerosLike t) = zerosLike t := by
  apply zerosLike_congr
  simp [tshape, zerosLike]

theorem vsum2_zeros_zeros (t : Tensor) :
    vsum2 (zerosLike t) (zerosLike t) = zerosLike t := by
  have := vsum2_zerosLike (zerosLike t)
  rwa [zerosLike_idem] at this

theorem foldr_vsum2_zeros (t : Tensor) :
    ∀ l : List Tensor, (∀ m ∈ l, m = zerosLike t) →
      l.foldr vsum2 (zerosLike t) = zerosLike t := by
  intro l
  induction l with
  | nil => intro _; rfl
  | cons a l ih =>
    intro h
    have ha : a = zerosLike t := h a (List.mem_cons_self a l)
    have hl : ∀ m ∈ l, m = zerosLike t := fun m hm => h m (List.mem_cons_of_mem a hm)
    simp only [List.foldr_cons, ih hl, ha, vsum2_zeros_zeros]

/-- C3: For every world_size at least 1 and every rowwise bias parameter
pre-sized like the bias, rank 0 loads the full bias, every other rank loads
zeros, and the element-wise sum of the loaded values over all ranks equals
the original bias exactly. -/
theorem rowwise_bias_sum_reconstructs (param bias : Tensor) (ws : Nat)
    (hws : 0 < ws) (hsh : tshape param = tshape bias) :
    (_copy_rowwise param bias true 0 ws = .ok bias) ∧
    (∀ r, 0 < r → _copy_rowwise param bias true r ws = .ok (zerosLike bias)) ∧
    ((List.range ws).map (fun r => okD (_copy_rowwise param bias true r ws))).foldr
        vsum2 (zerosLike bias) = bias := by
  have hzero : zerosLike param = zerosLike bias := zerosLike_congr hsh
  have h0 : _copy_rowwise param bias true 0 ws = .ok bias := by
    simp [_copy_rowwise, _copy_if_present, Tensor.copy_, hsh]
  have hr : ∀ r, 0 < r → _copy_rowwise param bias true r ws = .ok (zerosLike bias) := by
    intro r hrpos
    simp [_copy_rowwise, Nat.pos_iff_ne_zero.mp hrpos, hzero]
  refine ⟨h0, hr, ?_⟩
  obtain ⟨n, rfl⟩ : ∃ n, ws = n + 1 := ⟨ws - 1, by omega⟩
  rw [List.range_succ_eq_map, List.map_cons, List.foldr_cons, List.map_map]
  have htail : ∀ m ∈ List.map ((fun r => okD (_copy_rowwise param bias true r (n + 1)))
      ∘ Nat.succ) (List.range n), m = zerosLike bias := by
    intro m hm
    obtain ⟨r, _, rfl⟩ := List.mem_map.mp hm
    simp only [Function.comp]
    rw [hr (r + 1) (Nat.succ_pos r)]
    rfl
  rw [foldr_vsum2_zeros bias _ htail, h0]
  show vsum2 bias (zerosLike bias) = bias
  exact vsum2_zerosLike bias

/-- Witness for C3 at world_size 3 on a concrete 3-element bias. -/
theorem rowwise_bias_sum_reconstructs_witness :
    (_copy_rowwise [[0], [0], [0]] [[1], [2], [3]] true 0 3 = .ok [[1], [2], [3]]) ∧
    (_copy_rowwise [[0], [0], [0]] [[1], [2], [3]] true 2 3 = .ok [[0], [0], [0]]) ∧
    ((List.range 3).map
        (fun r => okD (_copy_rowwise [[0], [0], [0]] [[1], [2], [3]] true r 3))).foldr
      vsum2 (zerosLike [[1], [2], [3]]) = [[1], [2], [3]] := by
  have h := rowwise_bias_sum_reconstructs [[0], [0], [0]] [[1], [2], [3]] 3
      (by decide) (by decide)
  exact ⟨h.1, (h.2.1 2 (by decide)).trans (by rfl), h.2.2⟩

/-!
The adapter registry (serialization.py lines 30-98) and the lazy
safetensors store (lines 101-118 and 225-237).

A state dict is an association list with distinct keys, in insertion
order, like a Python dict. An adapter either returns the converted
mapping or raises FusableWeightsMissingError with the list of missing
weight names, modelled as the error branch of Except.
-/

/-- A state dict: ordered key to tensor mapping. -/
abbrev SDict := List (String × Tensor)

/-- An adapter: converts a raw state dict to canonical form, or signals
FusableWeightsMissingError listing the extra raw keys it needs. -/
abbrev Adapter := SDict → Except (List String) SDict

/-- The process-wide __adapters table: architecture to source to adapter. -/
abbrev Registry := List (String × List (String × Adapter))

/-- Python dict assignment d[k] = v: replace in place if the key exists,
else append at the end. -/
def dictSet : List (String × β) → String → β → List (String × β)
  | [], k, v => [(k, v)]
  | (k1, v1) :: rest, k, v =>
      if k1 == k then (k1, v) :: rest else (k1, v1) :: dictSet rest k v

/-- Python dict.pop(k, None): drop the entry with key k, if any. A dict
holds each key at most once, so dropping every matching entry coincides
with the dict operation on every reachable state. -/
def eraseKey (k : String) : List (String × β) → List (String × β)
  | [] => []
  | (k1, v1) :: rest => if k1 == k then eraseKey k rest else (k1, v1) :: eraseKey k rest

/-- serialization.py lines 73-80, _get_adapter: the identity adapter when
source is None, the architecture is unknown, or the source is not
registered for it; otherwise the registered adapter. -/
def _get_adapter (reg : Registry) (architecture : String) (source : Option String) :
    Adapter :=
  match source with
  | none => fun x => .ok x
  | some s =>
    match reg.lookup architecture with
    | none => fun x => .ok x
    | some sources =>
      match sources.lookup s with
      | none => fun x => .ok x
      | some adapter => adapter

/-- serialization.py lines 83-98, get_adapted: empty state dicts pass
through; otherwise the resolved adapter is applied. -/
def get_adapted (reg : Registry) (architecture : String) (source : Option String)
    (state_dict : SDict) : Except (List String) SDict :=
  if state_dict.length = 0 then .ok state_dict
  else _get_adapter reg architecture source state_dict

/-- C7: get_adapted with source None, and get_adapted with any source not
registered for the architecture, both return the state dict unchanged
(identity fallback). -/
theorem get_adapted_identity_fallback :
    (∀ (reg : Registry) (architecture : String) (sd : SDict),
       get_adapted reg architecture none sd = .ok sd) ∧
    (∀ (reg : Registry) (architecture source : String) (sd : SDict),
       ((reg.lookup architecture).bind (fun sources => sources.lookup source)) = none →
       get_adapted reg architecture (some source) sd = .ok sd) := by
  constructor
  · intro reg architecture sd
    by_cases h : sd.length = 0 <;> simp [get_adapted, _get_adapter, h]
  · intro reg architecture source sd hnone
    by_cases h : sd.length = 0
    · simp [get_adapted, h]
    · unfold get_adapted
      rw [if_neg h]
      unfold _get_adapter
      cases harch : reg.lookup architecture with
      | none => rfl
      | some sources =>
        have hs : sources.lookup source = none := by
          rw [harch] at hnone
          exact hnone
        show (match sources.lookup source with
          | none => fun x => Except.ok x
          | some adapter => adapter) sd = Except.ok sd
        rw [hs]

/-- Witness for C7 on a one-entry registry and an unregistered source. -/
theorem get_adapted_identity_fallback_witness :
    get_adapted [("llama", [("hf", fun _ => .ok [])])] "llama" none [("k", [[1]])]
        = .ok [("k", [[1]])] ∧
    get_adapted [("llama", [("hf", fun _ => .ok [])])] "llama" (some "meta") [("k", [[1]])]
        = .ok [("k", [[1]])] :=
  ⟨get_adapted_identity_fallback.1 [("llama", [("hf", fun _ => .ok [])])] "llama"
      [("k", [[1]])],
    get_adapted_identity_fallback.2 [("llama", [("hf", fun _ => .ok [])])] "llama"
      "meta" [("k", [[1]])] rfl⟩

/-!
Lazy safetensors store. An entry is either a still-lazy thunk naming the
backing file and device (the closure stored by set_lazy_tensor) or an
already resolved tensor. The oracle io models _get_safetensors_item
(file read plus device placement); the returned counter counts how many
times the oracle ran in the call.
-/

/-- One entry of a LazySafetensorsDict. -/
inductive LazyEntry where
  | thunk (file device : String)
  | val (t : Tensor)

/-- A LazySafetensorsDict: dict from key to entry. -/
abbrev LazyDict := List (String × LazyEntry)

/-- serialization.py lines 110-111, set_lazy_tensor: store a resolution
thunk under the key. -/
def set_lazy_tensor (d : LazyDict) (key file device : String) : LazyDict :=
  dictSet d key (.thunk file device)

/-- serialization.py lines 113-118, LazySafetensorsDict.__getitem__ with an
explicit I/O oracle: a thunk is resolved (one oracle call) and replaced in
place by its value; a resolved value is returned with no oracle call.
A missing key is the propagated KeyError. -/
def lazyGetItem (io : String → String → String → Tensor) (d : LazyDict) (key : String) :
    Option (Tensor × LazyDict × Nat) :=
  match d.lookup key with
  | none => none
  | some (.val t) => some (t, d, 0)
  | some (.thunk file device) =>
      let t := io key file device
      some (t, dictSet d key (.val t), 1)

theorem lookup_dictSet (k : String) (v : β) :
    ∀ d : List (String × β), List.lookup k (dictSet d k v) = some v := by
  intro d
  induction d with
  | nil => simp [dictSet]
  | cons kv rest ih =>
    obtain ⟨k1, v1⟩ := kv
    by_cases h : k1 = k
    · subst h
      simp [dictSet]
    · have hbeq : (k1 == k) = false := beq_eq_false_iff_ne.mpr h
      have hbeq2 : (k == k1) = false := beq_eq_false_iff_ne.mpr (Ne.symm h)
      simp [dictSet, hbeq, List.lookup, hbeq2, ih]

/-- C8: reading a key that still holds a thunk performs exactly one oracle
resolution, stores the resolved value in place of the thunk, and a second
read returns the cached value with zero further resolutions and no change
to the store. -/
theorem lazy_store_memoizes (io : String → String → String → Tensor)
    (d : LazyDict) (key file device : String)
    (h : d.lookup key = some (.thunk file device)) :
    lazyGetItem io d key
        = some (io key file device, dictSet d key (.val (io key file device)), 1) ∧
    (dictSet d key (.val (io key file device))).lookup key
        = some (.val (io key file device)) ∧
    lazyGetItem io (dictSet d key (.val (io key file device))) key
        = some (io key file device, dictSet d key (.val (io key file device)), 0) := by
  refine ⟨by simp [lazyGetItem, h], lookup_dictSet key _ d, ?_⟩
  simp [lazyGetItem, lookup_dictSet key _ d]

/-- Witness for C8 on a one-entry lazy store. -/
theorem lazy_store_memoizes_witness :
    lazyGetItem (fun _ _ _ => [[7]]) [("w", .thunk "model.safetensors" "cpu")] "w"
        = some ([[7]], [("w", .val [[7]])], 1) ∧
    lazyGetItem (fun _ _ _ => [[7]]) [("w", .val [[7]])] "w"
        = some ([[7]], [("w", .val [[7]])], 0) := by
  have h := lazy_store_memoizes (fun _ _ _ => [[7]])
      [("w", .thunk "model.safetensors" "cpu")] "w" "model.safetensors" "cpu" rfl
  exact ⟨h.1, h.2.2⟩

/-!
The destination module tree and the per-key loading walk
(serialization.py lines 406-475, _load_partial_state_dict).

Modelling notes, cross-checked against the source:
* NNModule models a torch.nn.Module: a namespace of attributes (each a
  submodule or a parameter), an optional list of indexed children (the
  module is then an Iterable, like nn.ModuleList), and the optional
  TPModule capability (the colwise/rowwise/embedding parameter-name sets).
* Parameters live in a Store mapping a parameter id to its current
  tensor value, so in-place copies into a parameter reached by any path
  are visible globally, as with shared torch storage.
* getattr on a missing name is the AttributeError the source catches:
  the walk breaks with a failure flag and the source then still runs the
  terminal lookup on the partially-walked module (there is no continue
  after the except in the while loop).
* A walk step that lands on a parameter mid-path (the source would then
  iterate into the raw tensor) and the uncaught ValueError of int() on a
  non-numeric index, or IndexError on a bad index, are modelled as fatal
  errors.
* A terminal name that resolves to a submodule raises AttributeError
  inside copy_ (a plain module has no copy_ attribute), which the source
  catches and records as an unused key.
-/

/-- Python str.split on a single-character separator, over the char list
(also for the empty string and empty segments, matching key.split in the
source); written out so that it evaluates inside the kernel. -/
def pySplitCharAux (sep : Char) : List Char → List Char → List String
  | [], acc => [String.mk acc.reverse]
  | c :: cs, acc =>
    if c = sep then String.mk acc.reverse :: pySplitCharAux sep cs []
    else pySplitCharAux sep cs (c :: acc)

/-- key.split with separator dot. -/
def pySplitDot (s : String) : List String := pySplitCharAux '.' s.toList []

/-- Python int(s) on the strings the walk feeds it: all-digit strings parse,
anything else raises the uncaught ValueError (none here). -/
def pyParseNat (s : String) : Option Nat :=
  let cs := s.toList
  if cs ≠ [] ∧ cs.all (fun c => c.isDigit) then
    some (cs.foldl (fun n c => 10 * n + (c.toNat - 48)) 0)
  else none

/-- The TPModule capability: the three parameter-name sets. -/
structure TPNames where
  colwise : List String
  rowwise : List String
  embedding : List String

/-- A destination module tree node (torch.nn.Module). An attribute is a
submodule (Sum.inl) or a parameter id (Sum.inr). -/
inductive NNModule where
  | mk : List (String × (NNModule ⊕ Nat)) → Option (List NNModule) → Option TPNames →
      NNModule

/-- Attribute lookup, getattr(module, name). -/
def NNModule.getAttr : NNModule → String → Option (NNModule ⊕ Nat)
  | .mk attrs _ _, s => List.lookup s attrs

/-- The indexed children when the module is an Iterable (nn.ModuleList). -/
def NNModule.indexedChildren : NNModule → Option (List NNModule)
  | .mk _ idx _ => idx

/-- The TPModule capability of the node, if it declares one. -/
def NNModule.tpInfo : NNModule → Option TPNames
  | .mk _ _ tp => tp

/-- Parameter storage: parameter id to current tensor value. -/
abbrev Store := Nat → Tensor

/-- Point update of the parameter storage. -/
def updateStore (store : Store) (pid : Nat) (t : Tensor) : Store :=
  fun n => if n = pid then t else store n

/-- The while loop of _load_partial_state_dict (lines 424-439): walk
attribute steps while at least two steps remain, consuming one extra step
as an integer index after stepping onto an Iterable, and remembering the
most recent TPModule passed. Returns the reached module, the TP ancestor,
and whether the walk broke on AttributeError (the caught, non-fatal
failure); fatal errors are the uncaught exceptions described above. -/
def walkLoop : NNModule → Option TPNames → List String → Except Unit (NNModule × Option TPNames × Bool)
  | m, tp, [] => .ok (m, tp, false)
  | m, tp, [_] => .ok (m, tp, false)
  | m, tp, s :: next :: rest =>
    match m.getAttr s with
    | none => .ok (m, tp, true)
    | some (Sum.inr _) => .error ()
    | some (Sum.inl m1) =>
      match m1.indexedChildren with
      | none =>
        walkLoop m1 (if m1.tpInfo.isSome then m1.tpInfo else tp) (next :: rest)
      | some children =>
        match pyParseNat next with
        | none => .error ()
        | some i =>
          match children.get? i with
          | some m2 =>
            walkLoop m2 (if m2.tpInfo.isSome then m2.tpInfo else tp) rest
          | none => .error ()

/-- The walk of one dotted checkpoint key from the model root. -/
def walkKey (model : NNModule) (key : String) : Except Unit (NNModule × Option TPNames × Bool) :=
  walkLoop model none (pySplitDot key)

/-- key_steps[-2], the enclosing module name, with the Python IndexError on
a list of fewer than two steps modelled as none. -/
def getSecondLast (l : List String) : Option String :=
  if 2 ≤ l.length then l.get? (l.length - 2) else none

/-- The per-key body of _load_partial_state_dict (lines 414-475): walk,
terminal lookup, then direct copy or TP dispatch by the enclosing module
name against the TP ancestor's three name sets (three independent ifs, as
in the source). Returns the updated storage and the keys appended to
unused_params while handling this key. -/
def processKey (model : NNModule) (store : Store) (key : String) (tensor_value : Tensor)
    (needs_tp_sharding : Bool) (rank world_size : Nat) :
    Except Unit (Store × List String) :=
  let key_steps := pySplitDot key
  match walkKey model key with
  | .error _ => .error ()
  | .ok (target_module, tp_module, walk_failed) =>
  let unused0 : List String := if walk_failed then [key] else []
  match target_module.getAttr (key_steps.getLastD "") with
  | none => .ok (store, unused0 ++ [key])
  | some (Sum.inl _) => .ok (store, unused0 ++ [key])
  | some (Sum.inr pid) =>
    let param := store pid
    if !needs_tp_sharding || tp_module.isNone then
      match _copy_if_present param tensor_value with
      | .ok newParam => .ok (updateStore store pid newParam, unused0)
      | .error _ => .error ()
    else
      match tp_module with
      | none => .error ()
      | some tpn =>
        match getSecondLast key_steps with
        | none => .error ()
        | some enclosing =>
          let is_bias := key_steps.getLastD "" == "bias"
          match (if tpn.colwise.contains enclosing
                 then _copy_colwise param tensor_value is_bias rank world_size
                 else .ok param) with
          | .error _ => .error ()
          | .ok p1 =>
            match (if tpn.rowwise.contains enclosing
                   then _copy_rowwise p1 tensor_value is_bias rank world_size
                   else .ok p1) with
            | .error _ => .error ()
            | .ok p2 =>
              match (if tpn.embedding.contains enclosing
                     then _copy_embedding p2 tensor_value rank world_size
                     else .ok p2) with
              | .error _ => .error ()
              | .ok p3 => .ok (updateStore store pid p3, unused0)

/-- serialization.py lines 406-475, _load_partial_state_dict: the loop over
the partial state dict items, accumulating unused_params in order. The
source computes unused_params as a local and drops it (the function
returns None); the embedding returns it so its contents can be stated. -/
def _load_partial_state_dict (model : NNModule) (store : Store) (state_dict : SDict)
    (needs_tp_sharding : Bool) (rank world_size : Nat) :
    Except Unit (Store × List String) :=
  match state_dict with
  | [] => .ok (store, [])
  | (key, tensor_value) :: rest =>
    match processKey model store key tensor_value needs_tp_sharding rank world_size with
    | .error _ => .error ()
    | .ok (store1, u1) =>
      match _load_partial_state_dict model store1 rest needs_tp_sharding rank world_size with
      | .error _ => .error ()
      | .ok (store2, u2) => .ok (store2, u1 ++ u2)

/-!
The merged checkpoint view and the orchestrator
(serialization.py lines 248-316, load_state_dict_into_model).

A ChainMap is the ordered list of constituent per-file stores; a lookup
consults them in order and returns the first hit. Stores hold resolved
tensors here: lazy resolution is modelled separately (lazyGetItem), and
the device migration of gathered tensors is a no-op for deviceless
tensors. Dict keys are unique, so removing every entry with the key
equals dict.pop on every reachable state.
-/

/-- The merged checkpoint view: constituent stores in precedence order. -/
abbrev CMap := List SDict

/-- ChainMap lookup: the first store holding the key wins. -/
def cmLookup (cm : CMap) (k : String) : Option Tensor :=
  match cm with
  | [] => none
  | m :: rest =>
    match m.lookup k with
    | some v => some v
    | none => cmLookup rest k

/-- The keys of the view (the snapshot list(state_dict.keys()) taken at
line 289). A Python ChainMap yields each key once, iterating its maps
from last to first; here the stores are flattened in order. No claim
depends on the iteration order, and a key listed more than once is
skipped at iteration time through used_keys, as in the source. -/
def cmKeys (cm : CMap) : List String := (cm.map (fun m => m.map Prod.fst)).flatten

/-- Lines 309-311: child_sd.pop(p_key, None) on every constituent store. -/
def cmPop (cm : CMap) (k : String) : CMap := cm.map (eraseKey k)

/-- The pops of all consumed raw keys of one iteration (lines 308-313). -/
def popAll (cm : CMap) (ks : List String) : CMap := ks.foldl cmPop cm

/-- The mutable state of the loading loop: the parameter storage, the
checkpoint view, and used_keys. -/
structure LoadState where
  store : Store
  cm : CMap
  used_keys : List String

/-- Lines 301-305: gather the missing fusable weights into used_keys and
partial_sd; a weight absent from the view is the uncaught KeyError. -/
def gatherMissing (cm : CMap) : List String → List String → SDict →
    Except Unit (List String × SDict)
  | [], used, partial_sd => .ok (used, partial_sd)
  | w :: ws, used, partial_sd =>
    match cmLookup cm w with
    | none => .error ()
    | some tv => gatherMissing cm ws (w :: used) (dictSet partial_sd w tv)

/-- Lines 307-315: apply the adapted partial state dict to the model
(dropping the unused_params list, as the source does) and pop every
consumed raw key from every constituent store. The view produced by
load_state_dict is always a ChainMap, so only the ChainMap branch of the
pop (lines 309-311) is modelled; the else branch for plain dicts is the
one-store special case. -/
def applyAndPop (model : NNModule) (st : LoadState) (used : List String)
    (partial_sd fms_partial_sd : SDict) (needs_tp_sharding : Bool)
    (rank world_size : Nat) : Except Unit LoadState :=
  match _load_partial_state_dict model st.store fms_partial_sd needs_tp_sharding
      rank world_size with
  | .error _ => .error ()
  | .ok (store2, _unused_params) =>
    .ok ⟨store2, popAll st.cm (partial_sd.map Prod.fst), used⟩

/-- One iteration of the key loop (lines 291-315): skip used keys, read the
tensor, adapt the singleton mapping, on FusableWeightsMissingError gather
the named weights and re-invoke the adapter once (a second failure is
uncaught), then apply and pop. -/
def loadIterKey (adapter : Adapter) (model : NNModule) (needs_tp_sharding : Bool)
    (rank world_size : Nat) (st : LoadState) (key : String) : Except Unit LoadState :=
  if st.used_keys.contains key then .ok st
  else
    match cmLookup st.cm key with
    | none => .error ()
    | some tv =>
      let used1 := key :: st.used_keys
      let partial0 : SDict := [(key, tv)]
      match adapter partial0 with
      | .ok fms =>
        applyAndPop model st used1 partial0 fms needs_tp_sharding rank world_size
      | .error missing =>
        match gatherMissing st.cm missing used1 partial0 with
        | .error _ => .error ()
        | .ok (used2, partial1) =>
          match adapter partial1 with
          | .error _ => .error ()
          | .ok fms =>
            applyAndPop model st used2 partial1 fms needs_tp_sharding rank world_size

/-- The loop over the snapshot of keys taken before any mutation. -/
def loadLoop (adapter : Adapter) (model : NNModule) (needs_tp_sharding : Bool)
    (rank world_size : Nat) : LoadState → List String → Except Unit LoadState
  | st, [] => .ok st
  | st, k :: rest =>
    match loadIterKey adapter model needs_tp_sharding rank world_size st k with
    | .error _ => .error ()
    | .ok st2 => loadLoop adapter model needs_tp_sharding rank world_size st2 rest

/-- serialization.py lines 248-316, load_state_dict_into_model: resolve the
adapter, decide whether TP sharding is needed, and run the key loop. The
source returns None after mutating model and state_dict in place; the
embedding returns that final state (and no diagnostics, faithfully). -/
def load_state_dict_into_model (reg : Registry) (model : NNModule) (store : Store)
    (state_dict : CMap) (architecture : String) (source : String)
    (distributed_strategy checkpoint_sharding : Option String)
    (rank world_size : Nat) : Except Unit (Store × CMap) :=
  let adapter := _get_adapter reg architecture (some source)
  let needs_tp_sharding :=
    (checkpoint_sharding != some "tp") && (distributed_strategy == some "tp")
  match loadLoop adapter model needs_tp_sharding rank world_size
      ⟨store, state_dict, []⟩ (cmKeys state_dict) with
  | .error _ => .error ()
  | .ok st => .ok (st.store, st.cm)

theorem updateStore_self (store : Store) (pid : Nat) :
    updateStore store pid (store pid) = store := by
  funext n
  unfold updateStore
  by_cases h : n = pid <;> simp [h]

/-- C10: when TP sharding is needed and the key reaches a parameter under a
TP-capable ancestor, but the enclosing module name is in none of the
ancestor's colwise, rowwise or embedding sets, the parameter is left
unchanged and no error and no diagnostic entry is produced. -/
theorem tp_name_miss_leaves_param_unchanged
    (model : NNModule) (store : Store) (key : String) (tensor_value : Tensor)
    (rank world_size : Nat) (m : NNModule) (tpn : TPNames) (pid : Nat) (enclosing : String)
    (hwalk : walkKey model key = .ok (m, some tpn, false))
    (hterm : m.getAttr ((pySplitDot key).getLastD "") = some (Sum.inr pid))
    (hsecond : getSecondLast (pySplitDot key) = some enclosing)
    (hc : tpn.colwise.contains enclosing = false)
    (hr : tpn.rowwise.contains enclosing = false)
    (he : tpn.embedding.contains enclosing = false) :
    processKey model store key tensor_value true rank world_size = .ok (store, []) := by
  unfold processKey
  rw [hwalk]
  simp only [hterm, hsecond, hc, hr, he, Bool.not_true, Bool.false_or, Option.isNone_some,
    if_false, Bool.false_eq_true, ite_false]
  rw [updateStore_self]

/-- Concrete module tree for the witnesses: a TP-capable module whose sets
do not mention the submodule x. -/
def tpnX : TPNames := ⟨["q"], ["d"], ["e"]⟩

def innerX : NNModule := .mk [("weight", Sum.inr 0)] none none

def tpModX : NNModule := .mk [("x", Sum.inl innerX)] none (some tpnX)

def rootX : NNModule := .mk [("layer", Sum.inl tpModX)] none none

/-- Witness for C10 on the concrete tree. -/
theorem tp_name_miss_leaves_param_unchanged_witness :
    processKey rootX (fun _ => [[5]]) "layer.x.weight" [[9]] true 0 2
      = .ok ((fun _ => [[5]] : Store), []) :=
  tp_name_miss_leaves_param_unchanged rootX (fun _ => [[5]]) "layer.x.weight" [[9]] 0 2
    innerX tpnX 0 "x" rfl rfl rfl rfl rfl rfl

-- Dictionary and view lemmas for the consumption invariants.

theorem lookup_eraseKey_self (k : String) :
    ∀ m : List (String × β), List.lookup k (eraseKey k m) = none := by
  intro m
  induction m with
  | nil => rfl
  | cons kv rest ih =>
    obtain ⟨k1, v1⟩ := kv
    by_cases h : k1 = k
    · have hb : (k1 == k) = true := beq_iff_eq.mpr h
      unfold eraseKey
      rw [if_pos hb]
      exact ih
    · have hb : (k1 == k) = false := beq_eq_false_iff_ne.mpr h
      have hb2 : (k == k1) = false := beq_eq_false_iff_ne.mpr (Ne.symm h)
      unfold eraseKey
      rw [if_neg (by simp [hb])]
      rw [List.lookup_cons, hb2]
      exact ih

theorem lookup_eraseKey_of_none (k k2 : String) :
    ∀ m : List (String × β), List.lookup k2 m = none →
      List.lookup k2 (eraseKey k m) = none := by
  intro m
  induction m with
  | nil => intro _; rfl
  | cons kv rest ih =>
    obtain ⟨k1, v1⟩ := kv
    intro h
    have hb2 : (k2 == k1) = false := by
      by_cases hc : (k2 == k1) = true
      · rw [List.lookup_cons] at h
        rw [hc] at h
        cases h
      · simpa using hc
    have hrest : List.lookup k2 rest = none := by
      rw [List.lookup_cons, hb2] at h
      exact h
    unfold eraseKey
    by_cases h1 : (k1 == k) = true
    · rw [if_pos h1]
      exact ih hrest
    · rw [if_neg h1]
      rw [List.lookup_cons, hb2]
      exact ih hrest

theorem cmPop_lookup_self (cm : CMap) (k : String) :
    ∀ m ∈ cmPop cm k, List.lookup k m = none := by
  intro m hm
  obtain ⟨m0, _, rfl⟩ := List.mem_map.mp hm
  exact lookup_eraseKey_self k m0

theorem cmPop_preserves_none (cm : CMap) (k k2 : String)
    (h : ∀ m ∈ cm, List.lookup k2 m = none) :
    ∀ m ∈ cmPop cm k, List.lookup k2 m = none := by
  intro m hm
  obtain ⟨m0, hm0, rfl⟩ := List.mem_map.mp hm
  exact lookup_eraseKey_of_none k k2 m0 (h m0 hm0)

theorem popAll_preserves_none (k2 : String) :
    ∀ (ks : List String) (cm : CMap),
      (∀ m ∈ cm, List.lookup k2 m = none) →
      ∀ m ∈ popAll cm ks, List.lookup k2 m = none := by
  intro ks
  induction ks with
  | nil => intro cm h; exact h
  | cons k ks ih =>
    intro cm h
    show ∀ m ∈ popAll (cmPop cm k) ks, List.lookup k2 m = none
    exact ih (cmPop cm k) (cmPop_preserves_none cm k k2 h)

theorem popAll_lookup_none (k2 : String) :
    ∀ (ks : List String) (cm : CMap), k2 ∈ ks →
      ∀ m ∈ popAll cm ks, List.lookup k2 m = none := by
  intro ks
  induction ks with
  | nil => intro cm h; cases h
  | cons k ks ih =>
    intro cm hmem
    rcases List.mem_cons.mp hmem with rfl | hk
    · show ∀ m ∈ popAll (cmPop cm k2) ks, List.lookup k2 m = none
      exact popAll_preserves_none k2 ks (cmPop cm k2) (cmPop_lookup_self cm k2)
    · exact ih (cmPop cm k) hk

theorem cmLookup_none_of_all (k : String) :
    ∀ cm : CMap, (∀ m ∈ cm, List.lookup k m = none) → cmLookup cm k = none := by
  intro cm
  induction cm with
  | nil => intro _; rfl
  | cons m rest ih =>
    intro h
    show (match m.lookup k with
      | some v => some v
      | none => cmLookup rest k) = none
    rw [h m (List.mem_cons_self m rest)]
    exact ih (fun m2 hm2 => h m2 (List.mem_cons_of_mem m hm2))

theorem keys_dictSet_self (k : String) (v : β) :
    ∀ p : List (String × β), k ∈ (dictSet p k v).map Prod.fst := by
  intro p
  induction p with
  | nil => simp [dictSet]
  | cons kv rest ih =>
    obtain ⟨k1, v1⟩ := kv
    by_cases h : (k1 == k) = true
    · have : k1 = k := by simpa using h
      subst this
      simp [dictSet, h]
    · have hf : (k1 == k) = false := by simpa using h
      simp only [dictSet, hf, List.map_cons, if_false, Bool.false_eq_true]
      exact List.mem_cons_of_mem k1 ih

theorem keys_dictSet_mono (k k2 : String) (v : β) :
    ∀ p : List (String × β), k2 ∈ p.map Prod.fst → k2 ∈ (dictSet p k v).map Prod.fst := by
  intro p
  induction p with
  | nil => intro h; cases h
  | cons kv rest ih =>
    obtain ⟨k1, v1⟩ := kv
    intro h
    by_cases hb : (k1 == k) = true
    · simpa [dictSet, hb] using h
    · have hf : (k1 == k) = false := by simpa using hb
      simp only [List.map_cons] at h
      rcases List.mem_cons.mp h with rfl | htail
      · simp [dictSet, hf]
      · simp only [dictSet, hf, List.map_cons, if_false, Bool.false_eq_true]
        exact List.mem_cons_of_mem k1 (ih htail)

theorem gather_keys_mono (cm : CMap) :
    ∀ (ms used : List String) (p : SDict) (used2 : List String) (p2 : SDict) (k : String),
      gatherMissing cm ms used p = .ok (used2, p2) →
      k ∈ p.map Prod.fst → k ∈ p2.map Prod.fst := by
  intro ms
  induction ms with
  | nil =>
    intro used p used2 p2 k h hk
    unfold gatherMissing at h
    injection h with h
    injection h with h1 h2
    rw [← h2]
    exact hk
  | cons w ws ih =>
    intro used p used2 p2 k h hk
    unfold gatherMissing at h
    cases hl : cmLookup cm w with
    | none => rw [hl] at h; cases h
    | some tv =>
      rw [hl] at h
      exact ih (w :: used) (dictSet p w tv) used2 p2 k h (keys_dictSet_mono w k tv p hk)

theorem gather_used_sub (cm : CMap) :
    ∀ (ms used : List String) (p : SDict) (used2 : List String) (p2 : SDict),
      gatherMissing cm ms used p = .ok (used2, p2) →
      ∀ k ∈ used2, k ∈ used ∨ k ∈ p2.map Prod.fst := by
  intro ms
  induction ms with
  | nil =>
    intro used p used2 p2 h k hk
    unfold gatherMissing at h
    injection h with h
    injection h with h1 h2
    subst h1
    exact Or.inl hk
  | cons w ws ih =>
    intro used p used2 p2 h k hk
    unfold gatherMissing at h
    cases hl : cmLookup cm w with
    | none => rw [hl] at h; cases h
    | some tv =>
      rw [hl] at h
      rcases ih (w :: used) (dictSet p w tv) used2 p2 h k hk with hu | hp
      · rcases List.mem_cons.mp hu with rfl | huse
        · exact Or.inr (gather_keys_mono cm ws (k :: used) (dictSet p k tv) used2 p2 k h
            (keys_dictSet_self k tv p))
        · exact Or.inl huse
      · exact Or.inr hp

theorem gather_used_mono (cm : CMap) :
    ∀ (ms used : List String) (p : SDict) (used2 : List String) (p2 : SDict),
      gatherMissing cm ms used p = .ok (used2, p2) → ∀ k ∈ used, k ∈ used2 := by
  intro ms
  induction ms with
  | nil =>
    intro used p used2 p2 h k hk
    unfold gatherMissing at h
    injection h with h
    injection h with h1 h2
    subst h1
    exact hk
  | cons w ws ih =>
    intro used p used2 p2 h k hk
    unfold gatherMissing at h
    cases hl : cmLookup cm w with
    | none => rw [hl] at h; cases h
    | some tv =>
      rw [hl] at h
      exact ih (w :: used) (dictSet p w tv) used2 p2 h k (List.mem_cons_of_mem w hk)

theorem applyAndPop_ok (model : NNModule) (st : LoadState) (used : List String)
    (partial_sd fms : SDict) (nT : Bool) (rank ws : Nat) (st' : LoadState)
    (h : applyAndPop model st used partial_sd fms nT rank ws = .ok st') :
    st'.cm = popAll st.cm (partial_sd.map Prod.fst) ∧ st'.used_keys = used := by
  unfold applyAndPop at h
  cases hl : _load_partial_state_dict model st.store fms nT rank ws with
  | error e => rw [hl] at h; cases h
  | ok p =>
    obtain ⟨s2, u2⟩ := p
    rw [hl] at h
    injection h with h
    rw [← h]
    exact ⟨rfl, rfl⟩

/-- Everything one successful non-skipped iteration does to used_keys and
the view: the new used keys are exactly covered by the popped raw keys. -/
theorem loadIterKey_ok_spec (adapter : Adapter) (model : NNModule) (nT : Bool)
    (rank ws : Nat) (st : LoadState) (key : String) (st' : LoadState)
    (h : loadIterKey adapter model nT rank ws st key = .ok st')
    (hnew : st.used_keys.contains key = false) :
    key ∈ st'.used_keys ∧ (∀ k ∈ st.used_keys, k ∈ st'.used_keys) ∧
    ∃ pkeys : List String,
      st'.cm = popAll st.cm pkeys ∧
      ∀ k2 ∈ st'.used_keys, k2 ∈ st.used_keys ∨ k2 ∈ pkeys := by
  unfold loadIterKey at h
  simp only [hnew, Bool.false_eq_true, if_false] at h
  cases hl : cmLookup st.cm key with
  | none => rw [hl] at h; cases h
  | some tv =>
    rw [hl] at h
    simp only [] at h
    cases ha : adapter [(key, tv)] with
    | ok fms =>
      rw [ha] at h
      simp only [] at h
      obtain ⟨hcm, hused⟩ := applyAndPop_ok _ _ _ _ _ _ _ _ _ h
      refine ⟨?_, ?_, [key], ?_, ?_⟩
      · rw [hused]; exact List.mem_cons_self key _
      · intro k hk; rw [hused]; exact List.mem_cons_of_mem key hk
      · exact hcm
      · intro k2 hk2
        rw [hused] at hk2
        rcases List.mem_cons.mp hk2 with rfl | hold
        · exact Or.inr (List.mem_singleton.mpr rfl)
        · exact Or.inl hold
    | error missing =>
      rw [ha] at h
      simp only [] at h
      cases hg : gatherMissing st.cm missing (key :: st.used_keys) [(key, tv)] with
      | error e => rw [hg] at h; cases h
      | ok pr =>
        obtain ⟨used2, p1⟩ := pr
        rw [hg] at h
        simp only [] at h
        cases ha2 : adapter p1 with
        | error e => rw [ha2] at h; cases h
        | ok fms =>
          rw [ha2] at h
          simp only [] at h
          obtain ⟨hcm, hused⟩ := applyAndPop_ok _ _ _ _ _ _ _ _ _ h
          refine ⟨?_, ?_, p1.map Prod.fst, hcm, ?_⟩
          · rw [hused]
            exact gather_used_mono st.cm missing (key :: st.used_keys) [(key, tv)]
              used2 p1 hg key (List.mem_cons_self key _)
          · intro k hk
            rw [hused]
            exact gather_used_mono st.cm missing (key :: st.used_keys) [(key, tv)]
              used2 p1 hg k (List.mem_cons_of_mem key hk)
          · intro k2 hk2
            rw [hused] at hk2
            rcases gather_used_sub st.cm missing (key :: st.used_keys) [(key, tv)]
                used2 p1 hg k2 hk2 with hu | hp
            · rcases List.mem_cons.mp hu with rfl | hold
              · refine Or.inr (gather_keys_mono st.cm missing (k2 :: st.used_keys)
                  [(k2, tv)] used2 p1 k2 hg ?_)
                simp
              · exact Or.inl hold
            · exact Or.inr hp

/-- C6: a key consumed by an iteration of load_state_dict_into_model is,
after that iteration, absent from every constituent store of the merged
view (not merely shadowed), so a lookup of it in the view fails. -/
theorem consumed_key_removed_from_all_stores
    (adapter : Adapter) (model : NNModule) (nT : Bool) (rank ws : Nat)
    (st : LoadState) (key : String) (st' : LoadState)
    (h : loadIterKey adapter model nT rank ws st key = .ok st')
    (hnew : st.used_keys.contains key = false) :
    ∀ k2 ∈ st'.used_keys, k2 ∉ st.used_keys →
      (∀ m ∈ st'.cm, List.lookup k2 m = none) ∧ cmLookup st'.cm k2 = none := by
  obtain ⟨_, _, pkeys, hcm, hcover⟩ :=
    loadIterKey_ok_spec adapter model nT rank ws st key st' h hnew
  intro k2 hk2 hnot
  have hpk : k2 ∈ pkeys := (hcover k2 hk2).resolve_left hnot
  have habs : ∀ m ∈ st'.cm, List.lookup k2 m = none := by
    rw [hcm]
    exact popAll_lookup_none k2 pkeys st.cm hpk
  exact ⟨habs, cmLookup_none_of_all k2 st'.cm habs⟩

/-- Witness for C6: one store holding one key; after its iteration the key
is gone from that constituent store and the merged lookup fails. -/
theorem consumed_key_removed_from_all_stores_witness :
    (∀ m ∈ ([[]] : CMap), List.lookup "k" m = none) ∧ cmLookup [[]] "k" = none := by
  have h := consumed_key_removed_from_all_stores (fun sd => .ok sd) (.mk [] none none)
      false 0 1 ⟨(fun _ => [[0]]), [[("k", [[1]])]], []⟩ "k"
      ⟨(fun _ => [[0]]), [[]], ["k"]⟩ rfl rfl
  exact h "k" (by simp) (by simp)

theorem loadIterKey_used_mono (adapter : Adapter) (model : NNModule) (nT : Bool)
    (rank ws : Nat) (st : LoadState) (key : String) (st' : LoadState)
    (h : loadIterKey adapter model nT rank ws st key = .ok st') :
    ∀ k ∈ st.used_keys, k ∈ st'.used_keys := by
  by_cases hc : st.used_keys.contains key = true
  · unfold loadIterKey at h
    simp only [hc, if_true] at h
    injection h with h
    rw [← h]
    exact fun k hk => hk
  · have hnew : st.used_keys.contains key = false := by simpa using hc
    exact (loadIterKey_ok_spec adapter model nT rank ws st key st' h hnew).2.1

theorem loadIterKey_key_used (adapter : Adapter) (model : NNModule) (nT : Bool)
    (rank ws : Nat) (st : LoadState) (key : String) (st' : LoadState)
    (h : loadIterKey adapter model nT rank ws st key = .ok st') :
    key ∈ st'.used_keys := by
  by_cases hc : st.used_keys.contains key = true
  · have hmem : key ∈ st.used_keys := List.elem_iff.mp hc
    exact loadIterKey_used_mono adapter model nT rank ws st key st' h key hmem
  · have hnew : st.used_keys.contains key = false := by simpa using hc
    exact (loadIterKey_ok_spec adapter model nT rank ws st key st' h hnew).1

theorem loadIterKey_preserves_absent (adapter : Adapter) (model : NNModule) (nT : Bool)
    (rank ws : Nat) (st : LoadState) (key : String) (st' : LoadState)
    (h : loadIterKey adapter model nT rank ws st key = .ok st')
    (habs : ∀ k ∈ st.used_keys, ∀ m ∈ st.cm, List.lookup k m = none) :
    ∀ k ∈ st'.used_keys, ∀ m ∈ st'.cm, List.lookup k m = none := by
  by_cases hc : st.used_keys.contains key = true
  · unfold loadIterKey at h
    simp only [hc, if_true] at h
    injection h with h
    rw [← h]
    exact habs
  · have hnew : st.used_keys.contains key = false := by simpa using hc
    obtain ⟨_, _, pkeys, hcm, hcover⟩ :=
      loadIterKey_ok_spec adapter model nT rank ws st key st' h hnew
    intro k hk m hm
    rw [hcm] at hm
    rcases hcover k hk with hold | hpk
    · exact popAll_preserves_none k pkeys st.cm (habs k hold) m hm
    · exact popAll_lookup_none k pkeys st.cm hpk m hm

theorem loadLoop_used_mono (adapter : Adapter) (model : NNModule) (nT : Bool)
    (rank ws : Nat) :
    ∀ (keys : List String) (st stF : LoadState),
      loadLoop adapter model nT rank ws st keys = .ok stF →
      ∀ k ∈ st.used_keys, k ∈ stF.used_keys := by
  intro keys
  induction keys with
  | nil =>
    intro st stF h k hk
    unfold loadLoop at h
    injection h with h
    rw [← h]
    exact hk
  | cons key keys ih =>
    intro st stF h k hk
    unfold loadLoop at h
    cases hi : loadIterKey adapter model nT rank ws st key with
    | error e => rw [hi] at h; cases h
    | ok st2 =>
      rw [hi] at h
      exact ih st2 stF h k
        (loadIterKey_used_mono adapter model nT rank ws st key st2 hi k hk)

/-- The loop maintains that every used key is gone from every constituent
store, and on success every iterated key ends up used. -/
theorem loadLoop_spec (adapter : Adapter) (model : NNModule) (nT : Bool)
    (rank ws : Nat) :
    ∀ (keys : List String) (st stF : LoadState),
      loadLoop adapter model nT rank ws st keys = .ok stF →
      (∀ k ∈ st.used_keys, ∀ m ∈ st.cm, List.lookup k m = none) →
      (∀ k ∈ stF.used_keys, ∀ m ∈ stF.cm, List.lookup k m = none) ∧
      (∀ k ∈ keys, k ∈ stF.used_keys) := by
  intro keys
  induction keys with
  | nil =>
    intro st stF h habs
    unfold loadLoop at h
    injection h with h
    rw [← h]
    exact ⟨habs, fun k hk => absurd hk (List.not_mem_nil k)⟩
  | cons key keys ih =>
    intro st stF h habs
    unfold loadLoop at h
    cases hi : loadIterKey adapter model nT rank ws st key with
    | error e => rw [hi] at h; cases h
    | ok st2 =>
      rw [hi] at h
      have habs2 := loadIterKey_preserves_absent adapter model nT rank ws st key st2 hi habs
      obtain ⟨hfin, hkeys⟩ := ih st2 stF h habs2
      refine ⟨hfin, fun k hk => ?_⟩
      rcases List.mem_cons.mp hk with rfl | htail
      · exact loadLoop_used_mono adapter model nT rank ws keys st2 stF h k
          (loadIterKey_key_used adapter model nT rank ws st k st2 hi)
      · exact hkeys k htail

/-- Processing one key and then the rest: a successful per-key step with
unchanged storage prepends its unused entries and goes on with the rest. -/
theorem load_partial_cons_ok (model : NNModule) (store : Store) (key : String)
    (tv : Tensor) (nT : Bool) (rank ws : Nat) (u : List String) (rest : SDict)
    (h : processKey model store key tv nT rank ws = .ok (store, u)) :
    _load_partial_state_dict model store ((key, tv) :: rest) nT rank ws
      = (_load_partial_state_dict model store rest nT rank ws).map
          (fun p => (p.1, u ++ p.2)) := by
  cases hx : _load_partial_state_dict model store rest nT rank ws with
  | error e =>
    unfold _load_partial_state_dict
    simp [h, hx, Except.map]
  | ok p =>
    obtain ⟨s2, u2⟩ := p
    unfold _load_partial_state_dict
    simp [h, hx, Except.map]

/-- C1 (amended): on success the view is fully drained of every snapshot
key (in particular every matched key: its count drops to zero in every
constituent store), and a key that cannot be matched is appended to the
local unused_params list once per failed lookup: twice when both the tree
walk and the terminal lookup fail, once when the walk succeeds and only
the terminal lookup fails. load_state_dict_into_model returns no
diagnostics (the source returns None and drops unused_params). -/
theorem unmatched_keys_recorded_and_view_drained :
    (∀ (reg : Registry) (model : NNModule) (store : Store) (state_dict : CMap)
       (architecture source : String) (ds cs : Option String) (rank ws : Nat)
       (store2 : Store) (cm2 : CMap),
       load_state_dict_into_model reg model store state_dict architecture source
           ds cs rank ws = .ok (store2, cm2) →
       ∀ k ∈ cmKeys state_dict,
         (∀ m ∈ cm2, List.lookup k m = none) ∧ cmLookup cm2 k = none) ∧
    (∀ (model : NNModule) (store : Store) (key : String) (tv : Tensor) (nT : Bool)
       (rank ws : Nat) (m : NNModule) (tp : Option TPNames),
       walkKey model key = .ok (m, tp, true) →
       m.getAttr ((pySplitDot key).getLastD "") = none →
       processKey model store key tv nT rank ws = .ok (store, [key, key])) ∧
    (∀ (model : NNModule) (store : Store) (key : String) (tv : Tensor) (nT : Bool)
       (rank ws : Nat) (m : NNModule) (tp : Option TPNames),
       walkKey model key = .ok (m, tp, false) →
       m.getAttr ((pySplitDot key).getLastD "") = none →
       processKey model store key tv nT rank ws = .ok (store, [key])) := by
  refine ⟨?_, ?_, ?_⟩
  · intro reg model store state_dict architecture source ds cs rank ws store2 cm2 h k hk
    unfold load_state_dict_into_model at h
    simp only [] at h
    cases hl : loadLoop (_get_adapter reg architecture (some source)) model
        ((cs != some "tp") && (ds == some "tp")) rank ws
        ⟨store, state_dict, []⟩ (cmKeys state_dict) with
    | error e => rw [hl] at h; cases h
    | ok stF =>
      rw [hl] at h
      injection h with h
      obtain ⟨habs, hused⟩ := loadLoop_spec _ model _ rank ws (cmKeys state_dict)
        ⟨store, state_dict, []⟩ stF hl
        (fun k hk => absurd hk (List.not_mem_nil k))
      have hcm2 : cm2 = stF.cm := by
        have := congrArg Prod.snd h
        exact this.symm
      have habsk : ∀ m ∈ cm2, List.lookup k m = none := by
        rw [hcm2]
        exact habs k (hused k hk)
      exact ⟨habsk, cmLookup_none_of_all k cm2 habsk⟩
  · intro model store key tv nT rank ws m tp hwalk hterm
    unfold processKey
    rw [hwalk]
    simp only [hterm, if_true]
    rfl
  · intro model store key tv nT rank ws m tp hwalk hterm
    unfold processKey
    rw [hwalk]
    simp only [hterm, if_false]
    rfl

/-- Counterexample for C1 as frozen: with an empty destination module, the
key a.b.c fails both the walk and the terminal lookup and is appended to
the diagnostics list twice, not exactly once (and the list is not returned:
the source drops it). -/
theorem unmatched_key_counted_twice_cex :
    _load_partial_state_dict (.mk [] none none) (fun _ => [[0]]) [("a.b.c", [[1]])]
        false 0 1
      = .ok ((fun _ => [[0]] : Store), ["a.b.c", "a.b.c"]) ∧
    (["a.b.c", "a.b.c"] : List String).count "a.b.c" ≠ 1 :=
  ⟨rfl, by decide⟩

/-- Witness for the amended C1: a concrete load drains the view, and the
concrete unmatched key is recorded twice. -/
theorem unmatched_keys_recorded_and_view_drained_witness :
    (∀ m ∈ ([[]] : CMap), List.lookup "k" m = none) ∧
    processKey (.mk [] none none) (fun _ => [[0]]) "a.b.c" [[1]] false 0 1
      = .ok ((fun _ => [[0]] : Store), ["a.b.c", "a.b.c"]) := by
  constructor
  · have h := unmatched_keys_recorded_and_view_drained.1 [] (.mk [] none none)
      (fun _ => [[0]]) [[("k", [[1]])]] "llama" "hf" none none 0 1
      (fun _ => [[0]]) [[]] rfl "k" (by simp [cmKeys])
    exact h.1
  · exact unmatched_keys_recorded_and_view_drained.2.1 (.mk [] none none)
      (fun _ => [[0]]) "a.b.c" [[1]] false 0 1 (.mk [] none none) none rfl rfl

/-- C5 (amended): when the walk breaks on AttributeError or the terminal
attribute is missing, and the terminal lookup on the reached module does
not land on a parameter, the key is recorded as unused (at least once),
the storage is untouched, and the load continues with the next key. If
after a failed walk the terminal lookup does land on a parameter, the
tensor is copied there instead and a shape-incompatible copy aborts the
whole load (see the counterexample). -/
theorem lookup_failure_recorded_and_load_continues
    (model : NNModule) (store : Store) (key : String) (tv : Tensor)
    (nT : Bool) (rank ws : Nat) (m : NNModule) (tp : Option TPNames) (failed : Bool)
    (hwalk : walkKey model key = .ok (m, tp, failed))
    (htrigger : failed = true ∨ m.getAttr ((pySplitDot key).getLastD "") = none)
    (hnoparam : ∀ pid, m.getAttr ((pySplitDot key).getLastD "") ≠ some (Sum.inr pid)) :
    ∃ u, processKey model store key tv nT rank ws = .ok (store, u) ∧ key ∈ u ∧
      ∀ rest, _load_partial_state_dict model store ((key, tv) :: rest) nT rank ws
        = (_load_partial_state_dict model store rest nT rank ws).map
            (fun p => (p.1, u ++ p.2)) := by
  have hproc : ∃ u, processKey model store key tv nT rank ws = .ok (store, u) ∧ key ∈ u := by
    cases hattr : m.getAttr ((pySplitDot key).getLastD "") with
    | none =>
      refine ⟨(if failed then [key] else []) ++ [key], ?_, by simp⟩
      unfold processKey
      rw [hwalk]
      simp only [hattr]
    | some attr =>
      cases attr with
      | inl m2 =>
        have hfail : failed = true := by
          rcases htrigger with hf | hn
          · exact hf
          · rw [hattr] at hn; cases hn
        subst hfail
        refine ⟨[key] ++ [key], ?_, by simp⟩
        unfold processKey
        rw [hwalk]
        simp only [hattr, if_true]
      | inr pid => exact absurd hattr (hnoparam pid)
  obtain ⟨u, hu, hk⟩ := hproc
  exact ⟨u, hu, hk, fun rest =>
    load_partial_cons_ok model store key tv nT rank ws u rest hu⟩

/-- Module for the C5 counterexample: the root has no submodule a but does
have a top-level parameter c. -/
def rootC5 : NNModule := .mk [("c", Sum.inr 0)] none none

/-- Counterexample for C5 as frozen: for the key a.c the walk fails with
AttributeError (recorded as unused), but the terminal lookup on the
partially-walked root accidentally finds the parameter c; the copy of the
2-D value into the differently shaped parameter is the uncaught
RuntimeError of copy_, so the load aborts instead of continuing (the
shapes (3, 2) and (2, 1) are not broadcast-compatible). -/
theorem lookup_failure_aborts_cex :
    walkKey rootC5 "a.c" = .ok (rootC5, none, true) ∧
    _load_partial_state_dict rootC5 (fun _ => [[5], [6]])
        [("a.c", [[1, 2], [3, 4], [5, 6]])] false 0 1 = .error () :=
  ⟨rfl, rfl⟩

/-- Witness for the amended C5 on an empty destination module. -/
theorem lookup_failure_recorded_and_load_continues_witness :
    ∃ u, processKey (.mk [] none none) (fun _ => [[0]]) "a.b.c" [[1]] false 0 1
        = .ok ((fun _ => [[0]] : Store), u) ∧ "a.b.c" ∈ u ∧
      ∀ rest, _load_partial_state_dict (.mk [] none none) (fun _ => [[0]])
          (("a.b.c", [[1]]) :: rest) false 0 1
        = (_load_partial_state_dict (.mk [] none none) (fun _ => [[0]]) rest false 0 1).map
            (fun p => (p.1, u ++ p.2)) :=
  lookup_failure_recorded_and_load_continues (.mk [] none none) (fun _ => [[0]])
    "a.b.c" [[1]] false 0 1 (.mk [] none none) none true rfl (Or.inl rfl)
    (fun _ h => Option.noConfusion h)

/-!
The checkpoint resolver (serialization.py lines 121-222, load_state_dict).

Modelling notes:
* The filesystem is an oracle FS: whether the (pre-glob) path is a
  directory or a file, and the matches a glob pattern yields in it.
  os.path.expanduser and the Path constructor are modelled as the
  identity on the pre-star text of the path.
* The result on success is the list of checkpoint files selected for this
  worker, in precedence order; building the per-file stores (lazy
  safetensors or eager torch.load, both merged into one ChainMap) is
  abstracted into one fileOpen event per selected file, since no claim
  distinguishes the two container formats.
* The event list records, in order, every glob call tried and every
  checkpoint file opened; validation errors are raised before any event.
* The AssertionError messages of the source become the distinct error
  values noCheckpoints and worldSizeMismatch; checkpoints[rank] out of
  range is indexError.
-/

/-- The filesystem oracle. -/
structure FS where
  isDir : String → Bool
  isFile : String → Bool
  glob : String → String → List String

/-- Observable filesystem actions of load_state_dict, in order. -/
inductive LSEvent where
  | globCall (dir pattern : String)
  | fileOpen (file : String)
deriving DecidableEq

/-- The fatal errors of load_state_dict. -/
inductive LSError where
  | fsdpIncompat
  | tpIncompat
  | noCheckpoints
  | worldSizeMismatch
  | indexError
deriving DecidableEq

/-- Python model_path.partition with separator star: the text before the
first star, the separator if present, and everything after it. -/
def partitionStar (s : String) : String × String × String :=
  match pySplitCharAux '*' s.toList [] with
  | [] => (s, "", "")
  | [x] => (x, "", "")
  | x :: rest => (x, "*", String.intercalate "*" rest)

/-- Lexicographic code-point comparison of strings (the order Python
sorted uses on the file names), written over the char lists so that it
evaluates inside the kernel. -/
def charListLe : List Char → List Char → Bool
  | [], _ => true
  | _ :: _, [] => false
  | a :: as, b :: bs => if a = b then charListLe as bs else decide (a < b)

def pyStrLe (a b : String) : Bool := charListLe a.toList b.toList

/-- Python sorted on strings: stable insertion sort by the lexicographic
order. -/
def insertSorted (x : String) : List String → List String
  | [] => [x]
  | y :: ys => if pyStrLe x y then x :: y :: ys else y :: insertSorted x ys

def sortStrings (l : List String) : List String := l.foldr insertSorted []

/-- Lines 181-185: try the glob patterns in order, stopping at the first
with at least one match, sorting the matches; every tried pattern is one
glob call. -/
def tryPatterns (fs : FS) (path : String) : List String → List String × List LSEvent
  | [] => ([], [])
  | pat :: rest =>
    let file_list := fs.glob path pat
    if file_list.length > 0 then (sortStrings file_list, [.globCall path pat])
    else
      let next := tryPatterns fs path rest
      (next.1, .globCall path pat :: next.2)

/-- serialization.py lines 121-222, load_state_dict: validation, file
discovery, rank selection for sharded checkpoints, the rank-0 rule for
unsharded checkpoints under fsdp/hsdp, and the selected files (each opened
once to build its store). -/
def load_state_dict (fs : FS) (model_path : Option String) (source : Option String)
    (distributed_strategy : Option String) (checkpoint_sharding : Option String)
    (initial_device : String) (rank world_size : Nat) :
    Except LSError (List String) × List LSEvent :=
  if model_path = none ∨ initial_device = "meta" then (.ok [], [])
  else if checkpoint_sharding = some "fsdp" ∧
      ¬(distributed_strategy = some "fsdp" ∨ distributed_strategy = some "hsdp") then
    (.error .fsdpIncompat, [])
  else if checkpoint_sharding = some "tp" ∧ distributed_strategy ≠ some "tp" then
    (.error .tpIncompat, [])
  else
    let parts := partitionStar (model_path.getD "")
    let path := parts.1
    let glob_pattern := parts.2.1 ++ parts.2.2
    let dirResult :=
      if fs.isDir path then
        let glob_pattern_list :=
          if glob_pattern ≠ "" then [glob_pattern]
          else if source = some "meta" then ["*.pth", "*.safetensors"]
          else if source = some "hf" then ["*.bin", "*.safetensors"]
          else ["*.safetensors", "*.pth", "*.bin"]
        tryPatterns fs path glob_pattern_list
      else ([], [])
    let checkpoints1 := if fs.isFile path then [path] else dirResult.1
    let events0 := dirResult.2
    if checkpoints1.length = 0 then (.error .noCheckpoints, events0)
    else
      match (if checkpoint_sharding ≠ none ∧ checkpoint_sharding ≠ some "layer" then
               if world_size ≠ checkpoints1.length then Except.error LSError.worldSizeMismatch
               else match checkpoints1.get? rank with
                 | none => Except.error LSError.indexError
                 | some c => Except.ok [c]
             else Except.ok checkpoints1 : Except LSError (List String)) with
      | .error e => (.error e, events0)
      | .ok checkpoints2 =>
        if checkpoint_sharding = none ∧
            (distributed_strategy = some "hsdp" ∨ distributed_strategy = some "fsdp") then
          if rank = 0 then
            match checkpoints2.get? 0 with
            | none => (.error .indexError, events0)
            | some c0 => (.ok [c0], events0 ++ [.fileOpen c0])
          else (.ok [], events0)
        else (.ok checkpoints2, events0 ++ checkpoints2.map .fileOpen)

/-- Stub filesystem for the resolver counterexample and witnesses. -/
def fsStub : FS := ⟨fun _ => true, fun _ => false, fun _ _ => ["x.safetensors"]⟩

/-- Counterexample for C4 as frozen: with the meta target device the
sentinel short-circuit runs before the sharding validation, so the
incompatible pair checkpoint_sharding fsdp with strategy tp returns an
empty result instead of failing with the incompatibility error. -/
theorem meta_device_skips_validation_cex :
    load_state_dict fsStub (some "ckpt") none (some "tp") (some "fsdp") "meta" 0 1
      = (.ok [], []) := rfl

/-- C4 (amended): for every path other than None and every target device
other than the meta sentinel, loading an fsdp-sharded checkpoint under the
tp strategy fails with the fsdp incompatibility error, and loading a
tp-sharded checkpoint under any strategy other than tp fails with the tp
incompatibility error, in both cases before any filesystem access. -/
theorem incompatible_sharding_fails_before_io
    (fs : FS) (mp : String) (source : Option String) (device : String)
    (rank ws : Nat) (hdev : device ≠ "meta") :
    (load_state_dict fs (some mp) source (some "tp") (some "fsdp") device rank ws
        = (.error .fsdpIncompat, [])) ∧
    (∀ ds : Option String, ds ≠ some "tp" →
      load_state_dict fs (some mp) source ds (some "tp") device rank ws
        = (.error .tpIncompat, [])) := by
  constructor
  · unfold load_state_dict
    rw [if_neg (by simp [hdev]), if_pos (by exact ⟨rfl, by decide⟩)]
  · intro ds hds
    unfold load_state_dict
    rw [if_neg (by simp [hdev]), if_neg (fun hcontra => absurd hcontra.1 (by decide)),
      if_pos (by exact ⟨rfl, hds⟩)]

/-- Witness for the amended C4 on a concrete filesystem and path. -/
theorem incompatible_sharding_fails_before_io_witness :
    load_state_dict fsStub (some "ckpt") none (some "tp") (some "fsdp") "cpu" 0 1
      = (.error .fsdpIncompat, []) ∧
    load_state_dict fsStub (some "ckpt") none none (some "tp") "cpu" 0 1
      = (.error .tpIncompat, []) := by
  have h := incompatible_sharding_fails_before_io fsStub "ckpt" none "cpu" 0 1 (by decide)
  exact ⟨h.1, h.2 none (by decide)⟩

theorem length_insertSorted (x : String) :
    ∀ l : List String, (insertSorted x l).length = l.length + 1 := by
  intro l
  induction l with
  | nil => rfl
  | cons y ys ih => by_cases h : pyStrLe x y = true <;> simp [insertSorted, h, ih]

theorem length_sortStrings (l : List String) : (sortStrings l).length = l.length := by
  induction l with
  | nil => rfl
  | cons x xs ih =>
    show (insertSorted x (sortStrings xs)).length = xs.length + 1
    rw [length_insertSorted, ih]

/-- C9: in a directory holding both safetensors and bin files, with no
source hint and no explicit glob, load_state_dict selects exactly the
safetensors files: the first pattern of the default preference order that
matches, sorted; one glob call is made and each selected file is opened. -/
theorem safetensors_preferred_selection
    (fs : FS) (p : String) (device : String) (rank ws : Nat)
    (hdev : device ≠ "meta")
    (hstar : partitionStar p = (p, "", ""))
    (hdir : fs.isDir p = true)
    (hfile : fs.isFile p = false)
    (hsafe : fs.glob p "*.safetensors" ≠ [])
    (hbin : fs.glob p "*.bin" ≠ []) :
    load_state_dict fs (some p) none none none device rank ws
      = (.ok (sortStrings (fs.glob p "*.safetensors")),
         .globCall p "*.safetensors" ::
           (sortStrings (fs.glob p "*.safetensors")).map LSEvent.fileOpen) := by
  have hlen : (sortStrings (fs.glob p "*.safetensors")).length ≠ 0 := by
    rw [length_sortStrings]
    exact fun hc => hsafe (List.eq_nil_of_length_eq_zero hc)
  have hpos : (fs.glob p "*.safetensors").length > 0 :=
    List.length_pos.mpr hsafe
  unfold load_state_dict
  rw [if_neg (by simp [hdev]), if_neg (by simp), if_neg (by simp)]
  simp only [Option.getD_some, hstar]
  unfold tryPatterns
  simp only [hdir, hfile, eq_self_iff_true, if_true, String.append_empty,
    Bool.false_eq_true, if_false, ite_false]
  rw [if_neg (fun hc : ("" : String) ≠ "" => hc rfl),
    if_neg (fun hc : (none : Option String) = some "meta" => Option.noConfusion hc),
    if_neg (fun hc : (none : Option String) = some "hf" => Option.noConfusion hc)]
  simp only []
  rw [if_pos hpos]
  simp only []
  rw [if_neg hlen,
    if_neg (fun hc : (none : Option String) ≠ none ∧ (none : Option String) ≠ some "layer"
      => hc.1 rfl)]
  simp

/-- Filesystem with both safetensors and bin files for the C9 witness. -/
def fsBoth : FS :=
  ⟨fun _ => true, fun _ => false,
   fun _ pat =>
     if pat = "*.safetensors" then ["b.safetensors", "a.safetensors"]
     else if pat = "*.bin" then ["c.bin"] else []⟩

/-- Witness for C9: the safetensors files are selected, sorted, with the
bin files passed over. -/
theorem safetensors_preferred_selection_witness :
    load_state_dict fsBoth (some "ckpt") none none none "cpu" 0 1
      = (.ok ["a.safetensors", "b.safetensors"],
         [.globCall "ckpt" "*.safetensors", .fileOpen "a.safetensors",
          .fileOpen "b.safetensors"]) := by
  have h := safetensors_preferred_selection fsBoth "ckpt" "cpu" 0 1
    (by decide) rfl rfl rfl (by decide) (by decide)
  refine h.trans ?_
  have hs : sortStrings (fsBoth.glob "ckpt" "*.safetensors")
      = ["a.safetensors", "b.safetensors"] := by decide
  rw [hs]
  rfl
